import Mathlib

/-!
Verification of the audio-streaming pipeline of `rcute_cozmars/speaker.py`.

The Python module is shallowly embedded: sample buffers are lists of exact
rationals, byte strings are lists of naturals (each in 0..255), the lazy
generators of the source become Lean lists, and the pacing loop of
`Speaker.play` becomes a pure function that records, for every block pushed
to the output stream, the sleep that follows the push.
-/

/-- Sample types that occur in the pipeline (numpy dtype strings
`int16`, `int32`, `float32`, `float64`). -/
inductive DType where
  | int16
  | int32
  | float32
  | float64
deriving DecidableEq

/-- Python `str(dtype).startswith('float')`. -/
def DType.isFloat : DType → Bool
  | .float32 => true
  | .float64 => true
  | _ => false

/-- Python `str(dtype).startswith('int')`. -/
def DType.isInt : DType → Bool
  | .int16 => true
  | .int32 => true
  | _ => false

/-- Byte width (numpy itemsize) of a sample type. -/
def DType.width : DType → Nat
  | .int16 => 2
  | .int32 => 4
  | .float32 => 4
  | .float64 => 8

/-- numpy `np.iinfo(dt).max`, the largest value of an integer dtype.
It is only ever consulted for integer dtypes; the float entries are
never reached by `np_convert`. -/
def DType.intMax : DType → ℤ
  | .int16 => 32767
  | .int32 => 2147483647
  | .float32 => 0
  | .float64 => 0

/-- Modelled from the spec: the repository's `util.sample_width` (the
`util` module is not under `src/`), "byte-width of the sample type" for
the dtype strings used by the speaker; it agrees with the numpy itemsize. -/
def sample_width (dt : DType) : Nat := dt.width

/-- Truncation toward zero, the rounding used by numpy `astype` from a
float to an integer dtype. -/
def truncQ (q : ℚ) : ℤ := if 0 ≤ q then ⌊q⌋ else ⌈q⌉

/-- Wrap an integer into the two's-complement range of an integer dtype,
as a C-style narrowing cast does.  The conversions exercised by the claims
stay in range, where the wrap is the identity. -/
def intWrap (dt : DType) (n : ℤ) : ℤ :=
  (n + 2 ^ (8 * dt.width - 1)) % 2 ^ (8 * dt.width) - 2 ^ (8 * dt.width - 1)

/-- numpy `astype` from an exact (float-modelled) value to an integer
dtype: truncate toward zero, then wrap into the dtype's range. -/
def castInt (dt : DType) (q : ℚ) : ℤ := intWrap dt (truncQ q)

/-- Little-endian byte serialization of an integer sample of byte width
`w` (two's complement, as numpy `tobytes` produces). -/
def intLE (w : Nat) (n : ℤ) : List Nat :=
  (List.range w).map fun i => (n % 2 ^ (8 * w)).toNat / 2 ^ (8 * i) % 256

/-- Bytes of one sample of dtype `dt`.  Integer samples are serialized
exactly; IEEE-754 bit patterns of float samples are not modelled (no claim
inspects float byte values), only their correct byte count is kept. -/
def sampleBytes (dt : DType) (x : ℚ) : List Nat :=
  if dt.isInt then intLE dt.width (truncQ x) else List.replicate dt.width 0

/-- Chunking loop of `raw_gen` (speaker.py lines 173-177): split a byte
string into consecutive windows of `n` bytes, zero-padding a short final
window.  `n = 0` would raise in Python (`range` with zero step) and is
mapped to the empty sequence here; the claims only concern `n > 0`. -/
def chunkPad (data : List Nat) (n : Nat) : List (List Nat) :=
  if h : n = 0 ∨ data = [] then []
  else (data.take n ++ List.replicate (n - data.length) 0) :: chunkPad (data.drop n) n
termination_by data.length
decreasing_by
  simp only [List.length_drop]
  rcases not_or.mp h with ⟨h1, h2⟩
  have := List.length_pos.mpr h2
  omega

/-- Python `raw_gen(data, dt, bs)`: the block size in samples is scaled by
the byte width of the dtype, then the data is chunked with zero padding. -/
def raw_gen (data : List Nat) (dt : DType) (bs : Nat) : List (List Nat) :=
  chunkPad data (bs * sample_width dt)

/-- Conversion step of `np_gen` (speaker.py lines 164-167) on a 1-D sample
buffer: a float source with an integer target is scaled by the target's
max and cast; an integer source with a float target is cast and divided by
the source's max; otherwise the data is left untouched, keeping its source
dtype.  The result pairs the dtype of the emitted buffer with its values. -/
def np_convert (srcDt : DType) (dt : DType) (data : List ℚ) : DType × List ℚ :=
  if srcDt.isFloat && dt.isInt then
    (dt, data.map fun x => ((castInt dt (x * (dt.intMax : ℚ))) : ℚ))
  else if srcDt.isInt && dt.isFloat then
    (dt, data.map fun x => x / (srcDt.intMax : ℚ))
  else
    (srcDt, data)

/-- Python `data.tobytes()` applied to the converted buffer: each sample
contributes the byte width of the buffer's actual dtype. -/
def np_bytes (srcDt : DType) (dt : DType) (data : List ℚ) : List Nat :=
  ((np_convert srcDt dt data).2.map (sampleBytes (np_convert srcDt dt data).1)).flatten

/-- Python `np_gen(data, dt, bs)` on a 1-D array: convert, serialize,
then chunk with `raw_gen`.  The 2-D branch of the source (`ndim > 1` →
`mean(axis=1, dtype=dt)`) is modelled below by `np_gen_arr`, of which this
is the 1-D case. -/
def np_gen (srcDt : DType) (data : List ℚ) (dt : DType) (bs : Nat) : List (List Nat) :=
  raw_gen (np_bytes srcDt dt data) dt bs

/-- Python `repeat_gen(gen, repeat)` (speaker.py lines 179-184): for a
repeat count of 1 the input generator is yielded through unchanged;
otherwise `itertools.tee` replays the sequence that many times. -/
def repeat_gen {α : Type} (gen : List α) (n : Nat) : List α :=
  if n = 1 then gen else (List.replicate n gen).flatten

/-- Streaming loop of `Speaker.play` (speaker.py lines 55-61).  Each
element of the result is a block pushed to the input stream paired with
the sleep that follows the push: while the running `count` (incremented by
the block duration `bd` after an unpaced push) is below `preload`, the
sleep is 0; afterwards every push is followed by `bd * 0.95` seconds. -/
def paceLoop (blocks : List (List Nat)) (count preload bd : ℚ) : List (List Nat × ℚ) :=
  match blocks with
  | [] => []
  | b :: rest =>
    if count < preload then (b, 0) :: paceLoop rest (count + bd) preload bd
    else (b, bd * (95 / 100)) :: paceLoop rest count preload bd

/-- Pacing of one `play` call over an iterable of blocks, repeats
expanded, with the running count starting at 0. -/
def playIter (blocks : List (List Nat)) (n : Nat) (preload bd : ℚ) : List (List Nat × ℚ) :=
  paceLoop (repeat_gen blocks n) 0 preload bd

/-- Error raised by `play` for an unusable source (Python `TypeError`,
the spec's `UnsupportedSourceError`). -/
inductive PlayErr where
  | typeError
deriving DecidableEq

/-- Source taxonomy of `Speaker.play` after dispatch: a numeric sample
array, a raw byte buffer, an already-iterable sequence of blocks, or any
other value (not a string, file-like object, array, byte buffer, or
iterable).  String and file-like sources go through the external decoder
collaborators and are outside this model. -/
inductive PlaySrc where
  | npArr (srcDt : DType) (data : List ℚ)
  | rawBytes (data : List Nat)
  | iter (blocks : List (List Nat))
  | other

/-- Model of `Speaker.play` (speaker.py lines 27-63) on non-file sources.
The `.ok` result is the complete trace of pushes to the output stream with
the sleep following each push; an `.error` result models the exception
raised before any block is pushed. -/
def play (src : PlaySrc) (n : Nat) (preload sr : ℚ) (dt : DType) (bd : ℚ) :
    Except PlayErr (List (List Nat × ℚ)) :=
  let bs := (truncQ (bd * sr)).toNat
  match src with
  | .npArr sdt d => .ok (playIter (np_gen sdt d dt bs) n preload bd)
  | .rawBytes d => .ok (playIter (raw_gen d dt bs) n preload bd)
  | .iter blocks => .ok (playIter blocks n preload bd)
  | .other => .error .typeError

/-- Model of a pydub `AudioSegment` restricted to the operations the tone
synthesizer uses: the ordered list of sine pieces it contains, each as a
pair of frequency and duration in milliseconds, together with its total
duration in milliseconds.  Durations are exact rationals; pydub's rounding
of a duration to whole frames is not modelled. -/
@[ext] structure Seg where
  pieces : List (ℚ × ℚ)
  len : ℚ
deriving DecidableEq

/-- pydub `AudioSegment.empty()`. -/
def emptySeg : Seg := ⟨[], 0⟩

/-- pydub `Sine(f, sample_rate=sr).to_audio_segment(duration=d)`: one sine
piece of frequency `f` lasting `d` milliseconds. -/
def sineSeg (f d : ℚ) : Seg := ⟨[(f, d)], d⟩

/-- pydub `AudioSegment.silent(duration=d)`: silence contributes no sine
piece, only duration. -/
def silentSeg (d : ℚ) : Seg := ⟨[], d⟩

/-- pydub `a + b`: plain concatenation. -/
def addSeg (a b : Seg) : Seg := ⟨a.pieces ++ b.pieces, a.len + b.len⟩

/-- pydub `a.append(b, crossfade=c)`: the last `c` milliseconds of `a` are
overlapped with the first `c` of `b`, so the result is `c` shorter than
plain concatenation.  pydub additionally requires `c` to be at most either
operand's length (for the synthesizer this holds when the duty cycle is at
least one half); that bound check is not modelled. -/
def appendCross (a b : Seg) (c : ℚ) : Seg := ⟨a.pieces ++ b.pieces, a.len + b.len - c⟩

/-- A (possibly nested) tone phrase.  A leaf carries the frequency in Hz
that the external `gpiozero.tones.Tone` collaborator resolves the note
name to; a `seq` node is a nested list subdividing its parent's beat. -/
inductive ToneExpr where
  | note (freq : ℚ)
  | seq (elems : List ToneExpr)

mutual
/-- Left fold of `tone2audio` (speaker.py lines 132-134): Python
`functools.reduce` with initial value `AudioSegment.empty()` accumulating
the rendering of each element. -/
def toneFold (r : Seg) (tones : List ToneExpr) (base dc : ℚ) : Seg :=
  match tones with
  | [] => r
  | e :: rest => toneFold (addSeg r (toneElem e base dc)) rest base dc

/-- Rendering of one element of a tone phrase: a leaf is a sine of
duration `base * dc` appended with a silence of the remaining beat,
crossfaded over that whole remainder; a nested list recurses with the
beat halved. -/
def toneElem (e : ToneExpr) (base dc : ℚ) : Seg :=
  match e with
  | .note f =>
      appendCross (sineSeg f (base * dc)) (silentSeg (base - base * dc)) (base - base * dc)
  | .seq l => toneFold emptySeg l (base / 2) dc
end

/-- Python `tone2audio(tones, base_beat_ms, duty_cycle, sr)` (the sample
rate does not affect piece durations in this exact model). -/
def tone2audio (tones : List ToneExpr) (base dc : ℚ) : Seg :=
  toneFold emptySeg tones base dc

mutual
/-- Accumulator loop of `max_freq` (speaker.py line 127): Python
`functools.reduce` with initial value 0, taking the max of the running
value and each element's frequency (recursing into nested lists). -/
def maxFreqAux (r : ℚ) (tones : List ToneExpr) : ℚ :=
  match tones with
  | [] => r
  | e :: rest => maxFreqAux (max r (elemFreq e)) rest

/-- Frequency contributed by one element of a phrase. -/
def elemFreq (e : ToneExpr) : ℚ :=
  match e with
  | .note f => f
  | .seq l => maxFreqAux 0 l
end

/-- Python `max_freq(tones)`: maximum frequency over the whole nested
phrase, starting from 0. -/
def max_freq (tones : List ToneExpr) : ℚ := maxFreqAux 0 tones

/-- Sample-rate selection of `Speaker.beep` (speaker.py lines 115-121). -/
def beep_sr (tones : List ToneExpr) : ℚ :=
  let f := max_freq tones
  if 11025 < f then 44100 else if 800 < f then 22050 else 16000

/-- Error raised by `beep` for a bad duty cycle (Python `ValueError`, the
spec's `InvalidParameterError`). -/
inductive BeepErr where
  | invalidParameter
deriving DecidableEq

/-- Model of `Speaker.beep` (speaker.py lines 95-123): validate the duty
cycle, pick the sample rate from the maximum frequency, render the phrase
with a base beat of `60000 / tempo` milliseconds, and hand the rendering
to `play`.  The result returns the chosen sample rate and the rendered
segment. -/
def beep (tones : List ToneExpr) (tempo dc : ℚ) : Except BeepErr (ℚ × Seg) :=
  if 0 < dc ∧ dc ≤ 1 then
    .ok (beep_sr tones, tone2audio tones (60000 / tempo) dc)
  else
    .error .invalidParameter

/-- Modelled from the spec: the claim's sample-rate rule, "the smallest
rate of the ladder 16 kHz / 22.05 kHz / 44.1 kHz that exceeds twice the
maximum frequency, capped at 44.1 kHz". -/
def ladderRate (f : ℚ) : ℚ :=
  if 2 * f < 16000 then 16000 else if 2 * f < 22050 then 22050 else 44100

/-- Modelled from the spec: the conversion rule exactly as the claim
states it, whose third case converts a same-family source "by a direct
cast to the target type" (for integers a truncating cast; float widths do
not change values in this exact model). -/
def claim_convert (srcDt : DType) (dt : DType) (data : List ℚ) : DType × List ℚ :=
  if srcDt.isFloat && dt.isInt then
    (dt, data.map fun x => ((castInt dt (x * (dt.intMax : ℚ))) : ℚ))
  else if srcDt.isInt && dt.isFloat then
    (dt, data.map fun x => x / (srcDt.intMax : ℚ))
  else if srcDt.isInt && dt.isInt then
    (dt, data.map fun x => ((intWrap dt (truncQ x)) : ℚ))
  else
    (dt, data)

mutual
/-- Expected flattening of a rendered phrase: the ordered list of sine
pieces of one element, each leaf lasting its beat times the duty cycle. -/
def elemPieces (e : ToneExpr) (base dc : ℚ) : List (ℚ × ℚ) :=
  match e with
  | .note f => [(f, base * dc)]
  | .seq l => listPieces l (base / 2) dc

/-- Expected flattening of a rendered phrase, list version. -/
def listPieces (l : List ToneExpr) (base dc : ℚ) : List (ℚ × ℚ) :=
  match l with
  | [] => []
  | e :: rest => elemPieces e base dc ++ listPieces rest base dc
end

mutual
/-- Total beat budget of one element: a leaf owns its whole beat, a nested
list subdivides half the beat per element. -/
def elemBudget (e : ToneExpr) (base : ℚ) : ℚ :=
  match e with
  | .note _ => base
  | .seq l => listBudget l (base / 2)

/-- Total beat budget of a phrase, list version. -/
def listBudget (l : List ToneExpr) (base : ℚ) : ℚ :=
  match l with
  | [] => 0
  | e :: rest => elemBudget e base + listBudget rest base
end

/-- A numpy sample array as Python `np_gen` receives it: one-dimensional
mono samples, or a two-dimensional array with one row per sample frame
and one column per channel. -/
inductive NpArr where
  | oneD (srcDt : DType) (data : List ℚ)
  | twoD (srcDt : DType) (rows : List (List ℚ))

/-- numpy `mean(axis=1, dtype=dt)` over one row (the channel down-mix of
speaker.py line 163).  For a float accumulation dtype the mean is exact in
this rational model; for an integer accumulation dtype the sum is wrapped
into the dtype and the quotient truncated toward zero and wrapped, as
numpy's integer mean does.  The wrap is applied to the exact sum rather
than after each addition; the two agree because two's-complement addition
is associative modulo the dtype range. -/
def rowMean (dt : DType) (row : List ℚ) : ℚ :=
  if dt.isInt then
    ((intWrap dt (truncQ (((intWrap dt (truncQ row.sum)) : ℚ) / (row.length : ℚ)))) : ℚ)
  else row.sum / (row.length : ℚ)

/-- Conversion step of `np_gen` on a full array, including the 2-D branch
(speaker.py lines 162-167): a multi-channel array is first down-mixed by
`mean(axis=1, dtype=dt)`, which already produces a buffer of dtype `dt`,
so the family branches — re-tested on that buffer — leave it unchanged;
a 1-D array goes through `np_convert` directly. -/
def np_convert_arr (dt : DType) : NpArr → DType × List ℚ
  | .oneD srcDt data => np_convert srcDt dt data
  | .twoD _ rows => np_convert dt dt (rows.map (rowMean dt))

/-- Byte serialization (`tobytes`) of a full array after conversion. -/
def np_bytes_arr (dt : DType) (a : NpArr) : List Nat :=
  ((np_convert_arr dt a).2.map (sampleBytes (np_convert_arr dt a).1)).flatten

/-- Python `np_gen` on a full (1-D or 2-D) array; `np_gen` above is its
1-D specialization. -/
def np_gen_arr (a : NpArr) (dt : DType) (bs : Nat) : List (List Nat) :=
  raw_gen (np_bytes_arr dt a) dt bs

theorem sample_width_pos (dt : DType) : 0 < sample_width dt := by
  cases dt <;> simp [sample_width, DType.width]

theorem chunkPad_nil (n : Nat) : chunkPad [] n = [] := by
  rw [chunkPad]; simp

theorem chunkPad_flatten_aux (n : Nat) (hn : 0 < n) :
    ∀ (L : Nat) (data : List Nat), data.length ≤ L →
      (chunkPad data n).flatten = data ++ List.replicate ((n - data.length % n) % n) 0 := by
  intro L
  induction L with
  | zero =>
    intro data h
    have hdata : data = [] := List.eq_nil_of_length_eq_zero (Nat.le_zero.mp h)
    subst hdata
    simp [chunkPad_nil, Nat.mod_self]
  | succ L ih =>
    intro data h
    by_cases hd : data = []
    · subst hd; simp [chunkPad_nil, Nat.mod_self]
    · rw [chunkPad, dif_neg (by push_neg; exact ⟨hn.ne', hd⟩)]
      have hlen : 0 < data.length := List.length_pos.mpr hd
      have hdrop : (data.drop n).length ≤ L := by
        simp only [List.length_drop]; omega
      rw [List.flatten_cons, ih (data.drop n) hdrop]
      rcases Nat.lt_or_ge data.length n with hcase | hcase
      · have h1 : data.drop n = [] := List.drop_eq_nil_of_le (le_of_lt hcase)
        have h2 : data.take n = data := List.take_of_length_le (le_of_lt hcase)
        have h3 : data.length % n = data.length := Nat.mod_eq_of_lt hcase
        have h4 : (n - data.length) % n = n - data.length := Nat.mod_eq_of_lt (by omega)
        simp [h1, h2, h3, h4, Nat.mod_self]
      · have h1 : n - data.length = 0 := by omega
        have h2 : (data.drop n).length = data.length - n := List.length_drop n data
        rw [h1, h2, ← Nat.mod_eq_sub_mod hcase]
        simp only [List.replicate_zero, List.append_nil, List.nil_append]
        rw [← List.append_assoc, List.take_append_drop]

theorem chunkPad_blockLen_aux (n : Nat) (hn : 0 < n) :
    ∀ (L : Nat) (data : List Nat), data.length ≤ L →
      ∀ b ∈ chunkPad data n, b.length = n := by
  intro L
  induction L with
  | zero =>
    intro data h b hb
    have hdata : data = [] := List.eq_nil_of_length_eq_zero (Nat.le_zero.mp h)
    subst hdata
    simp [chunkPad_nil] at hb
  | succ L ih =>
    intro data h b hb
    by_cases hd : data = []
    · subst hd; simp [chunkPad_nil] at hb
    · rw [chunkPad, dif_neg (by push_neg; exact ⟨hn.ne', hd⟩)] at hb
      have hlen : 0 < data.length := List.length_pos.mpr hd
      rcases List.mem_cons.mp hb with rfl | hb'
      · simp only [List.length_append, List.length_take, List.length_replicate]
        omega
      · exact ih (data.drop n) (by simp only [List.length_drop]; omega) b hb'

/-- Claim C2: for every byte buffer and every positive block size, the
chunking step `raw_gen` emits blocks whose concatenation equals the input
zero-padded up to the next boundary of `block_size_samples × byte-width`,
and every emitted block, the last included, has exactly that length. -/
theorem raw_gen_chunks (data : List Nat) (dt : DType) (bs : Nat) (h : 0 < bs) :
    (raw_gen data dt bs).flatten
      = data ++ List.replicate
          ((bs * sample_width dt - data.length % (bs * sample_width dt))
            % (bs * sample_width dt)) 0
    ∧ ∀ b ∈ raw_gen data dt bs, b.length = bs * sample_width dt := by
  have hn : 0 < bs * sample_width dt := Nat.mul_pos h (sample_width_pos dt)
  exact ⟨chunkPad_flatten_aux _ hn data.length data le_rfl,
    chunkPad_blockLen_aux _ hn data.length data le_rfl⟩

/-- Witness for claim C2 at a concrete input: three bytes with a block
size of two int16 samples give one block, padded with one zero byte. -/
theorem raw_gen_chunks_witness :
    (raw_gen [1, 2, 3] DType.int16 2).flatten = [1, 2, 3, 0]
    ∧ ([1, 2, 3, 0] : List Nat).length = 2 * sample_width DType.int16 := by
  have h := raw_gen_chunks [1, 2, 3] DType.int16 2 (by norm_num)
  constructor
  · have h1 := h.1
    simpa [sample_width, DType.width] using h1
  · exact h.2 [1, 2, 3, 0]
      (by simp [raw_gen, sample_width, DType.width, chunkPad])

/-- Claim C3: for every finite block sequence and every repeat count of at
least 1, `repeat_gen` yields the sequence concatenated with itself that
many times, hence exactly `n × len(seq)` blocks in order, and for a count
of 1 it is a pure passthrough. -/
theorem repeat_gen_spec {α : Type} (seq : List α) (n : Nat) (h : 1 ≤ n) :
    repeat_gen seq n = (List.replicate n seq).flatten
    ∧ (repeat_gen seq n).length = n * seq.length
    ∧ repeat_gen seq 1 = seq := by
  have h1 : repeat_gen seq n = (List.replicate n seq).flatten := by
    by_cases hn : n = 1
    · subst hn; simp [repeat_gen]
    · simp [repeat_gen, hn]
  refine ⟨h1, ?_, by simp [repeat_gen]⟩
  rw [h1]
  simp [List.length_flatten, List.map_replicate, List.sum_replicate, smul_eq_mul]

/-- Witness for claim C3 at a concrete input: two blocks repeated twice. -/
theorem repeat_gen_spec_witness :
    repeat_gen [[1], [2]] 2 = [[1], [2], [1], [2]]
    ∧ (repeat_gen [[1], [2]] 2).length = 2 * 2 := by
  have h := repeat_gen_spec [[1], [2]] 2 (by norm_num)
  exact ⟨h.1.trans (by decide), by simpa using h.2.1⟩

/-- Claim C4: `beep` fails with the invalid-parameter error exactly when
the duty cycle lies outside the half-open interval (0, 1]; in particular a
duty cycle of 0 and one of 1.5 both fail. -/
theorem beep_duty_cycle_check (tones : List ToneExpr) (tempo dc : ℚ) :
    (beep tones tempo dc = .error .invalidParameter ↔ ¬(0 < dc ∧ dc ≤ 1))
    ∧ beep tones tempo 0 = .error .invalidParameter
    ∧ beep tones tempo (3 / 2) = .error .invalidParameter := by
  refine ⟨?_, by norm_num [beep], by norm_num [beep]⟩
  unfold beep
  split
  · rename_i hok
    simp [hok]
  · rename_i hbad
    simp [hbad]

/-- Claim C8: a source that is none of the recognized kinds and is not
iterable makes `play` fail with the unsupported-source error (Python
`TypeError`), and no block is pushed to the output stream (an error result
is raised before any push). -/
theorem play_unsupported_source (n : Nat) (preload sr : ℚ) (dt : DType) (bd : ℚ) :
    play PlaySrc.other n preload sr dt bd = .error .typeError := rfl

theorem repeat_gen_nil {α : Type} (n : Nat) : repeat_gen ([] : List α) n = [] := by
  by_cases hn : n = 1 <;> simp [repeat_gen, hn]

/-- Claim C10: an empty byte buffer or an empty sample array produces zero
blocks, and playing such a source pushes nothing to the output stream. -/
theorem empty_source_no_blocks (srcDt dt : DType) (bs n : Nat) (preload sr bd : ℚ) :
    raw_gen [] dt bs = []
    ∧ np_gen srcDt [] dt bs = []
    ∧ play (PlaySrc.rawBytes []) n preload sr dt bd = .ok []
    ∧ play (PlaySrc.npArr srcDt []) n preload sr dt bd = .ok [] := by
  have hraw : ∀ m : Nat, chunkPad [] m = [] := fun m => chunkPad_nil m
  have hnp : np_bytes srcDt dt [] = [] := by
    unfold np_bytes np_convert
    split
    · simp
    · split <;> simp
  refine ⟨hraw _, ?_, ?_, ?_⟩
  · simp [np_gen, hnp, raw_gen, hraw]
  · simp [play, playIter, raw_gen, hraw, repeat_gen_nil, paceLoop]
  · simp [play, playIter, np_gen, hnp, raw_gen, hraw, repeat_gen_nil, paceLoop]

theorem paceLoop_map_fst (blocks : List (List Nat)) (c p bd : ℚ) :
    (paceLoop blocks c p bd).map Prod.fst = blocks := by
  induction blocks generalizing c with
  | nil => simp [paceLoop]
  | cons b rest ih =>
    rw [paceLoop]
    split
    · simpa using ih (c + bd)
    · simpa using ih c

theorem paceLoop_getElem (blocks : List (List Nat)) (p bd : ℚ) (hbd : 0 ≤ bd) :
    ∀ (c : ℚ) (i : ℕ) (hi : i < (paceLoop blocks c p bd).length),
      (paceLoop blocks c p bd)[i].2
        = if c + i * bd < p then 0 else bd * (95 / 100) := by
  induction blocks with
  | nil => intro c i hi; simp [paceLoop] at hi
  | cons b rest ih =>
    intro c i hi
    simp only [paceLoop] at hi ⊢
    by_cases hc : c < p
    · simp only [if_pos hc] at hi ⊢
      match i with
      | 0 => simp [hc]
      | i + 1 =>
        rw [List.getElem_cons_succ, ih (c + bd) i (by simpa using hi)]
        have harith : c + bd + (i : ℚ) * bd = c + ((i : ℕ) + 1 : ℚ) * bd := by ring
        rw [harith]
        norm_num
    · simp only [if_neg hc] at hi ⊢
      push_neg at hc
      match i with
      | 0 => simp [not_lt.mpr hc]
      | i + 1 =>
        rw [List.getElem_cons_succ, ih c i (by simpa using hi)]
        push_cast
        have hnn : (0 : ℚ) ≤ (i : ℚ) * bd := mul_nonneg (by positivity) hbd
        have hnn1 : (0 : ℚ) ≤ ((i : ℚ) + 1) * bd := mul_nonneg (by positivity) hbd
        have hA : p ≤ c + (i : ℚ) * bd := by linarith
        have hB : p ≤ c + ((i : ℚ) + 1) * bd := by linarith
        rw [if_neg (not_lt.mpr hA), if_neg (not_lt.mpr hB)]

/-- Claim C1 (amended): a block is pushed with no pacing delay while the
running count, which starts at 0 and grows by `block_duration` per unpaced
push, is still below `preload` — so the first `⌈preload / bd⌉` blocks go
back-to-back, not the first `preload` blocks — and every later push is
followed by a wait of `0.95 × block_duration`.  Block `i` (0-based) is
unpaced exactly when `i * bd < preload`. -/
theorem play_pacing (blocks : List (List Nat)) (preload sr : ℚ) (dt : DType) (bd : ℚ)
    (hbd : 0 ≤ bd) :
    play (PlaySrc.iter blocks) 1 preload sr dt bd = .ok (playIter blocks 1 preload bd)
    ∧ (playIter blocks 1 preload bd).map Prod.fst = blocks
    ∧ ∀ (i : ℕ) (hi : i < (playIter blocks 1 preload bd).length),
        (playIter blocks 1 preload bd)[i].2
          = if (i : ℚ) * bd < preload then 0 else bd * (95 / 100) := by
  have hrep : repeat_gen blocks 1 = blocks := by simp [repeat_gen]
  refine ⟨rfl, ?_, ?_⟩
  · simp [playIter, hrep, paceLoop_map_fst]
  · intro i hi
    have h := paceLoop_getElem blocks preload bd hbd 0 i (by simpa [playIter, hrep] using hi)
    simpa [playIter, hrep] using h

/-- Witness for claim C1 at a concrete input: three blocks with a preload
of 1 and a block duration of one half second; the first two are unpaced
and the third is followed by the 0.95-scaled wait. -/
theorem play_pacing_witness :
    (0 : ℚ) ≤ 1 / 2
    ∧ (playIter [[0], [1], [2]] 1 1 (1 / 2)).map Prod.fst = [[0], [1], [2]]
    ∧ ∃ hlen : 2 < (playIter [[0], [1], [2]] 1 1 (1 / 2)).length,
        (playIter [[0], [1], [2]] 1 1 (1 / 2))[2].2 = (1 / 2) * (95 / 100) := by
  have h := play_pacing [[0], [1], [2]] 1 22050 DType.int16 (1 / 2) (by norm_num)
  refine ⟨by norm_num, h.2.1, ?_⟩
  have hlen : (playIter [[0], [1], [2]] 1 1 (1 / 2)).length = 3 := by
    have := congrArg List.length h.2.1
    simpa using this
  refine ⟨by omega, ?_⟩
  rw [h.2.2 2 (by omega)]
  norm_num

/-- Claim C1 counterexample: with the default preload of 1 and a block
duration of 0.1 s, the second of two blocks is also pushed with zero
delay (the loop adds the block duration, not 1, to its counter), whereas
the claim requires a wait of `0.95 × 0.1 ≠ 0` after the first block. -/
theorem play_pacing_counterexample :
    play (PlaySrc.iter [[0], [1]]) 1 1 22050 DType.int16 (1 / 10)
      = .ok [([0], 0), ([1], 0)]
    ∧ ((1 : ℚ) / 10) * (95 / 100) ≠ 0 := by
  constructor
  · norm_num [play, playIter, repeat_gen, paceLoop]
  · norm_num

/-- Claim C5 counterexample: for a phrase whose maximum frequency is
5000 Hz the code selects 22050 Hz, but the smallest ladder rate exceeding
twice the maximum frequency is 16000 Hz — the claim's general rule
contradicts the code (and the claim's own 5000 Hz instance). -/
theorem beep_sr_counterexample :
    beep_sr [ToneExpr.note 5000] = 22050
    ∧ ladderRate 5000 = 16000
    ∧ (22050 : ℚ) ≠ 16000 := by
  refine ⟨?_, ?_, by norm_num⟩
  · norm_num [beep_sr, max_freq, maxFreqAux, elemFreq]
  · norm_num [ladderRate]

/-- Claim C5 (amended): the rendering sample rate is a function of the
maximum frequency over the whole nested phrase, chosen by thresholds —
above 11025 Hz the top tier 44100, above 800 Hz the tier 22050, otherwise
16000.  The chosen rate always lies on the ladder, is at least twice the
maximum frequency whenever that maximum is at most 11025 Hz, and is capped
at 44100; max frequency 500 selects 16000, 5000 selects 22050, and 15000
selects 44100. -/
theorem beep_sr_spec :
    (∀ tones : List ToneExpr,
        (beep_sr tones = 16000 ∨ beep_sr tones = 22050 ∨ beep_sr tones = 44100)
        ∧ 2 * min (max_freq tones) 11025 ≤ beep_sr tones
        ∧ beep_sr tones ≤ 44100)
    ∧ beep_sr [ToneExpr.note 500] = 16000
    ∧ beep_sr [ToneExpr.note 5000] = 22050
    ∧ beep_sr [ToneExpr.note 15000] = 44100 := by
  refine ⟨fun tones => ?_, ?_, ?_, ?_⟩
  · have hbs : beep_sr tones
        = if 11025 < max_freq tones then 44100
          else if 800 < max_freq tones then 22050 else 16000 := rfl
    have hmin : min (max_freq tones) 11025 ≤ max_freq tones := min_le_left _ _
    have hmin2 : min (max_freq tones) 11025 ≤ 11025 := min_le_right _ _
    rw [hbs]
    split
    · rename_i h
      exact ⟨Or.inr (Or.inr rfl), by linarith, by norm_num⟩
    · rename_i h
      push_neg at h
      split
      · rename_i h2
        exact ⟨Or.inr (Or.inl rfl), by linarith, by norm_num⟩
      · rename_i h2
        push_neg at h2
        exact ⟨Or.inl rfl, by linarith, by norm_num⟩
  · norm_num [beep_sr, max_freq, maxFreqAux, elemFreq]
  · norm_num [beep_sr, max_freq, maxFreqAux, elemFreq]
  · norm_num [beep_sr, max_freq, maxFreqAux, elemFreq]

mutual
theorem toneFold_eq : ∀ (tones : List ToneExpr) (r : Seg) (base dc : ℚ),
    toneFold r tones base dc
      = ⟨r.pieces ++ listPieces tones base dc, r.len + dc * listBudget tones base⟩
  | [], r, base, dc => by
      simp [toneFold, listPieces, listBudget]
  | e :: rest, r, base, dc => by
      simp only [toneFold]
      rw [toneFold_eq rest (addSeg r (toneElem e base dc)) base dc, toneElem_eq e base dc]
      simp only [addSeg, listPieces, listBudget, Seg.mk.injEq]
      exact ⟨by simp [List.append_assoc], by ring⟩

theorem toneElem_eq : ∀ (e : ToneExpr) (base dc : ℚ),
    toneElem e base dc = ⟨elemPieces e base dc, dc * elemBudget e base⟩
  | .note f, base, dc => by
      simp only [toneElem, elemPieces, elemBudget, appendCross, sineSeg, silentSeg,
        Seg.mk.injEq]
      exact ⟨by simp, by ring⟩
  | .seq l, base, dc => by
      simp only [toneElem]
      rw [toneFold_eq l emptySeg (base / 2) dc]
      simp [emptySeg, elemPieces, elemBudget]
end

/-- Claim C6 (amended): each nesting level halves the per-element beat and
the renders are concatenated in order, but the trailing silent gap of each
leaf is consumed by the crossfade, so a leaf occupies `beat × duty_cycle`
milliseconds with no silence after it.  In general the rendering flattens
to the leaves in order, each lasting its beat times the duty cycle, for a
total of `duty_cycle ×` the phrase's beat budget; for `[A4, [B4, C5]]` at
a 500 ms base beat and duty cycle 0.9, A4 sounds for 450 ms, then B4 and
C5 for 225 ms each, and the total is 900 ms, not 1000 ms.  The hypotheses
record the domain in which the pydub crossfade model is valid (the gap
may not exceed the sounded part). -/
theorem tone2audio_spec (tones : List ToneExpr) (base dc : ℚ)
    (h1 : 1 / 2 ≤ dc) (h2 : dc ≤ 1) (h3 : 0 ≤ base) :
    tone2audio tones base dc = ⟨listPieces tones base dc, dc * listBudget tones base⟩
    ∧ tone2audio [ToneExpr.note 440, ToneExpr.seq [ToneExpr.note 494, ToneExpr.note 523]]
        500 (9 / 10)
      = ⟨[(440, 450), (494, 225), (523, 225)], 900⟩ := by
  constructor
  · rw [tone2audio, toneFold_eq tones emptySeg base dc]
    simp [emptySeg]
  · rw [tone2audio, toneFold_eq _ emptySeg 500 (9 / 10)]
    norm_num [emptySeg, listPieces, elemPieces, listBudget, elemBudget]

/-- Witness for claim C6 at a concrete phrase: a single A4 leaf at a
500 ms beat and duty cycle 0.9 renders as one 450 ms sine piece. -/
theorem tone2audio_spec_witness :
    (1 : ℚ) / 2 ≤ 9 / 10
    ∧ tone2audio [ToneExpr.note 440] 500 (9 / 10) = ⟨[(440, 450)], 450⟩ := by
  have h := (tone2audio_spec [ToneExpr.note 440] 500 (9 / 10)
    (by norm_num) (by norm_num) (by norm_num)).1
  refine ⟨by norm_num, ?_⟩
  rw [h]
  norm_num [listPieces, elemPieces, listBudget, elemBudget]

/-- Claim C6 counterexample: the phrase `[A4, [B4, C5]]` (frequencies as
resolved by the collaborator, here 440, 494, 523 Hz) at a 500 ms base beat
and duty cycle 0.9 renders exactly three sine pieces of 450, 225 and
225 ms with no silent gap pieces, for a total of 900 ms — the crossfade
absorbs the gaps, so the total is not approximately 1000 ms. -/
theorem tone2audio_counterexample :
    tone2audio [ToneExpr.note 440, ToneExpr.seq [ToneExpr.note 494, ToneExpr.note 523]]
        500 (9 / 10)
      = ⟨[(440, 450), (494, 225), (523, 225)], 900⟩
    ∧ (900 : ℚ) ≠ 1000 := by
  constructor
  · norm_num [tone2audio, toneFold, toneElem, addSeg, appendCross, sineSeg, silentSeg,
      emptySeg]
  · norm_num

/-- Claim C7 (amended): for a one-dimensional buffer, every float source
with an integer target is scaled by the target integer type's maximum and
cast with truncation, every integer source with a float target is cast and
divided by the source integer type's maximum, and a source whose numeric
family equals the target's is passed through entirely unchanged, keeping
its source dtype — no cast to the target type is performed (for equal
source and target dtypes this is the identity the claim describes; for
differing widths in one family the buffer stays in the source type).  A
two-dimensional array is first down-mixed by `mean(axis=1, dtype=dt)`,
which already yields a buffer of the target dtype, so the family rules
leave it unchanged and in particular no division by the source integer
type's maximum ever occurs for it. -/
theorem np_convert_rules (srcDt dt : DType) (data : List ℚ) (rows : List (List ℚ)) :
    (srcDt.isFloat = true → dt.isInt = true →
      np_convert srcDt dt data
        = (dt, data.map fun x => ((castInt dt (x * (dt.intMax : ℚ))) : ℚ)))
    ∧ (srcDt.isInt = true → dt.isFloat = true →
      np_convert srcDt dt data = (dt, data.map fun x => x / (srcDt.intMax : ℚ)))
    ∧ (srcDt.isFloat = dt.isFloat → np_convert srcDt dt data = (srcDt, data))
    ∧ np_convert_arr dt (NpArr.oneD srcDt data) = np_convert srcDt dt data
    ∧ np_convert_arr dt (NpArr.twoD srcDt rows) = (dt, rows.map (rowMean dt)) := by
  refine ⟨?_, ?_, ?_, rfl, ?_⟩
  · intro hf hi
    have h1 : (srcDt.isFloat && dt.isInt) = true := by rw [hf, hi]; rfl
    simp [np_convert, h1]
  · intro hi hf
    have h1 : (srcDt.isFloat && dt.isInt) = false := by
      cases srcDt <;> cases dt <;> simp_all [DType.isFloat, DType.isInt]
    have h2 : (srcDt.isInt && dt.isFloat) = true := by rw [hi, hf]; rfl
    simp [np_convert, h1, h2]
  · intro h
    have h1 : (srcDt.isFloat && dt.isInt) = false := by
      cases srcDt <;> cases dt <;> simp_all [DType.isFloat, DType.isInt]
    have h2 : (srcDt.isInt && dt.isFloat) = false := by
      cases srcDt <;> cases dt <;> simp_all [DType.isFloat, DType.isInt]
    simp [np_convert, h1, h2]
  · have h1 : (dt.isFloat && dt.isInt) = false := by cases dt <;> rfl
    have h2 : (dt.isInt && dt.isFloat) = false := by cases dt <;> rfl
    simp [np_convert_arr, np_convert, h1, h2]

/-- Witness for claim C7 at concrete inputs, exercising every rule: a
float64 quarter-scale sample cast to int16, an int16 sample divided into
float64, an int32 buffer with int16 target passed through unchanged, and
a one-frame stereo int16 array with float32 target down-mixed to the mean
of its two channels with no division by the source maximum. -/
theorem np_convert_rules_witness :
    np_convert .float64 .int16 [1 / 4] = (.int16, [8191])
    ∧ np_convert .int16 .float64 [16383] = (.float64, [16383 / 32767])
    ∧ np_convert .int32 .int16 [5] = (.int32, [5])
    ∧ np_convert_arr .float32 (NpArr.twoD .int16 [[1, 3]]) = (.float32, [2]) := by
  refine ⟨?_, ?_, ?_, ?_⟩
  · have h := (np_convert_rules .float64 .int16 [1 / 4] []).1 (by rfl) (by rfl)
    rw [h]
    norm_num [castInt, truncQ, intWrap, DType.width, DType.intMax]
  · have h := (np_convert_rules .int16 .float64 [16383] []).2.1 (by rfl) (by rfl)
    rw [h]
    norm_num [DType.intMax]
  · exact (np_convert_rules .int32 .int16 [5] []).2.2.1 (by rfl)
  · have h := (np_convert_rules .int16 .float32 [] [[1, 3]]).2.2.2.2
    rw [h]
    norm_num [rowMean, DType.isInt, List.sum_cons, List.sum_nil]

/-- Claim C7 counterexample: an int32 sample buffer with an int16 target
is not cast — `np_convert` keeps the source dtype int32 while the claim's
rule casts to int16, and the serialized form shows it: the sample `1`
becomes the four bytes `[1, 0, 0, 0]`, where a direct int16 cast would
serialize it as the two bytes `[1, 0]`. -/
theorem np_convert_counterexample :
    np_convert .int32 .int16 [1] = (.int32, [1])
    ∧ claim_convert .int32 .int16 [1] = (.int16, [1])
    ∧ DType.int32 ≠ DType.int16
    ∧ np_bytes .int32 .int16 [1] = [1, 0, 0, 0]
    ∧ sampleBytes .int16 1 = [1, 0] := by
  refine ⟨?_, ?_, by decide, ?_, ?_⟩
  · simp [np_convert, DType.isFloat, DType.isInt]
  · norm_num [claim_convert, DType.isFloat, DType.isInt, intWrap, truncQ, DType.width]
  · simp [np_bytes, np_convert, sampleBytes, DType.isInt, DType.isFloat, intLE,
      DType.width, truncQ, List.range_succ]
  · simp [sampleBytes, DType.isInt, intLE, DType.width, truncQ, List.range_succ]
